import Mathlib

/-!
Verification development for the VideoTranslator transport / orchestration
layer.  The Python sources are shallowly embedded: pure functions become Lean
functions over Nat / Int / Rat (Python float division is modelled as exact
rational division, and Python's int() conversion as truncation toward zero),
stateful components become explicit state passing, and the asynchronous RPC
producer becomes a small-step labelled transition system whose atomic blocks
are the code regions between await points of the event loop.
-/

namespace VideoTranslator

/-- Truncation toward zero of a rational number, the behaviour of Python's
int() applied to a float. -/
def pyInt (q : ℚ) : ℤ := if q < 0 then ⌈q⌉ else ⌊q⌋

/-! ## SSE event formatter (src/utils/sse_formatter.py)

A BaseService message is a JSON dict; the formatter only ever inspects the
keys "status", "progress", "stage" and the presence of an "error" key, so the
embedding records exactly those projections (absent keys are None). -/

/-- Shape of a BaseService message as seen by SSEEventFormatter: the values of
the "status", "progress" and "stage" keys when present, and whether an
"error" key is present. -/
structure SSEMessageShape where
  status : Option String
  progress : Option ℤ
  stage : Option String
  hasErrorKey : Bool
deriving DecidableEq, Repr

/-- Embedding of SSEEventFormatter._detect_event_type: wire event kind chosen
from the payload shape, with dict .get defaults "processing", 0 and "". -/
def detect_event_type (message : SSEMessageShape) : String :=
  let status := message.status.getD "processing"
  let progress := message.progress.getD 0
  let stage := message.stage.getD ""
  if status == "error" || message.hasErrorKey then "error"
  else if status == "success" && (progress == 100 || stage == "complete") then "complete"
  else "progress"

/-- Classifier following the spec's words for the formatter claim (C9), used
only to compare against the embedded code: status "error" wins over
everything; status "success" with progress 100 is "complete"; every other
payload is "progress". -/
def detect_event_type_spec (message : SSEMessageShape) : String :=
  let status := message.status.getD "processing"
  let progress := message.progress.getD 0
  if status == "error" then "error"
  else if status == "success" && progress == 100 then "complete"
  else "progress"

/-! ## Stage model (src/services/service_stages.py) -/

/-- Embedding of the ServiceStage dataclass. -/
structure ServiceStage where
  id : String
  progress : ℤ
  supports_substeps : Bool := false
  timeout_seconds : Option ℤ := none
deriving DecidableEq, Repr

instance : Inhabited ServiceStage := ⟨⟨"", 0, false, none⟩⟩

/-- Numeric part of ServiceStage.__post_init__ validation: a constructed
stage always has progress between 0 and 100. -/
def ServiceStage.wf (s : ServiceStage) : Prop := 0 ≤ s.progress ∧ s.progress ≤ 100

instance (s : ServiceStage) : Decidable s.wf := by unfold ServiceStage.wf; infer_instance

/-- Embedding of ServiceStageDefinition.get_all_stages: the implicit
initializing stage at progress 0, then the service-declared stages, then the
implicit terminal complete stage at progress 100.  A stage definition is
identified with its list of declared (service-specific) stages. -/
def get_all_stages (service_stages : List ServiceStage) : List ServiceStage :=
  ({ id := "initializing", progress := 0 } : ServiceStage) ::
    (service_stages ++ [({ id := "complete", progress := 100 } : ServiceStage)])

/-- Embedding of ServiceStageDefinition.get_stage_by_id: first stage of the
full list whose id matches. -/
def get_stage_by_id (service_stages : List ServiceStage) (stage_id : String) :
    Option ServiceStage :=
  (get_all_stages service_stages).find? (fun stage => stage.id == stage_id)

/-- Embedding of ServiceStageDefinition.get_progress_for_stage: progress of
the stage with the given id, or the sentinel -1 when no stage has that id. -/
def get_progress_for_stage (service_stages : List ServiceStage) (stage_id : String) : ℤ :=
  match get_stage_by_id service_stages stage_id with
  | some stage => stage.progress
  | none => -1

/-- Embedding of ServiceStageDefinition.validate_stage_sequence: the Python
loop for i in range(1, len(stages)-1) fails when stages[i].progress <=
stages[i-1].progress, so every checked adjacent pair must strictly increase;
then the ids of the full list must be pairwise distinct
(len(ids) == len(set(ids))). -/
def validate_stage_sequence (service_stages : List ServiceStage) : Bool :=
  let stages := get_all_stages service_stages
  ((List.range' 1 (stages.length - 2)).all fun i =>
      decide ((stages.getD (i - 1) default).progress < (stages.getD i default).progress))
    && ((stages.map (fun s => s.id)).length == (stages.map (fun s => s.id)).dedup.length)

/-! ## Progress tracker (src/services/base_service.py)

BaseService keeps per-invocation fields _current_stage_id,
_current_stage_index, _current_substep and _current_total_substeps; they form
the tracker state.  Python ints are embedded as ℤ (the index starts at -1). -/

/-- The stage-tracking fields of a BaseService instance. -/
structure TrackerState where
  current_stage_id : Option String
  current_stage_index : ℤ
  current_substep : ℤ
  current_total_substeps : ℤ
deriving DecidableEq, Repr

/-- Field values set by BaseService.__init__. -/
def initialTrackerState : TrackerState :=
  { current_stage_id := none, current_stage_index := -1,
    current_substep := 0, current_total_substeps := 0 }

/-- Embedding of BaseService.set_stage: record the id, reset substeps, and
update the index to the first matching position of the full stage list,
keeping the previous index when no stage has that id. -/
def set_stage (service_stages : List ServiceStage) (st : TrackerState)
    (stage_id : String) (total_substeps : ℤ) : TrackerState :=
  let stages := get_all_stages service_stages
  let idx :=
    match stages.findIdx? (fun stage => stage.id == stage_id) with
    | some i => (i : ℤ)
    | none => st.current_stage_index
  { current_stage_id := some stage_id, current_stage_index := idx,
    current_substep := 0, current_total_substeps := total_substeps }

/-- Embedding of BaseService.next_stage: on the first call (index -1) move to
position 0 of the full stage list; otherwise advance by one while not yet at
the last position; in both cases reset the substep counters.  Returns the
updated state and the method's boolean result. -/
def next_stage (service_stages : List ServiceStage) (st : TrackerState)
    (total_substeps : ℤ) : TrackerState × Bool :=
  let stages := get_all_stages service_stages
  if st.current_stage_index = -1 then
    match stages with
    | [] => (st, false)
    | first :: _ =>
      ({ current_stage_id := some first.id, current_stage_index := 0,
         current_substep := 0, current_total_substeps := total_substeps }, true)
  else if st.current_stage_index < (stages.length : ℤ) - 1 then
    let new_index := st.current_stage_index + 1
    ({ current_stage_id := some ((stages.getD new_index.toNat default).id),
       current_stage_index := new_index,
       current_substep := 0, current_total_substeps := total_substeps }, true)
  else (st, false)

/-- Embedding of BaseService.increment_substep: when substeps are configured,
bump the counter, clamped to the configured total. -/
def increment_substep (st : TrackerState) : TrackerState :=
  if 0 < st.current_total_substeps then
    { st with current_substep := min (st.current_substep + 1) st.current_total_substeps }
  else st

/-- Embedding of BaseService.get_current_progress: 0 before any stage is set;
otherwise the stage's base progress, refined — when substeps are active and
the current stage is found at a non-terminal position of the full list — by
linear interpolation toward the next stage's base progress, truncated with
int() and capped at 100. -/
def get_current_progress (service_stages : List ServiceStage) (st : TrackerState) : ℤ :=
  match st.current_stage_id with
  | none => 0
  | some stage_id =>
    let base_progress := get_progress_for_stage service_stages stage_id
    if 0 < st.current_total_substeps ∧ 0 < st.current_substep then
      let stages := get_all_stages service_stages
      match stages.findIdx? (fun s => s.id == stage_id) with
      | some current_index =>
        if (current_index : ℤ) < (stages.length : ℤ) - 1 then
          let next_progress :=
            get_progress_for_stage service_stages ((stages.getD (current_index + 1) default).id)
          let progress_range := next_progress - base_progress
          let substep_progress : ℚ :=
            ((st.current_substep : ℚ) / (st.current_total_substeps : ℚ)) * (progress_range : ℚ)
          min 100 (pyInt ((base_progress : ℚ) + substep_progress))
        else base_progress
      | none => base_progress
    else base_progress

/-- One invocation's worth of tracker operations considered by the
monotonicity property: automatic stage advancement and substep increments. -/
inductive TrackOp
  | nextStage (total_substeps : ℤ)
  | incrementSubstep
deriving DecidableEq, Repr

/-- Apply one tracker operation to a state. -/
def applyTrackOp (service_stages : List ServiceStage) (st : TrackerState) :
    TrackOp → TrackerState
  | .nextStage t => (next_stage service_stages st t).1
  | .incrementSubstep => increment_substep st

/-- Run a sequence of tracker operations from the freshly initialized state. -/
def runTrackOps (service_stages : List ServiceStage) (ops : List TrackOp) : TrackerState :=
  ops.foldl (applyTrackOp service_stages) initialTrackerState

/-- The two-stage definition of the spec's concrete scenario C. -/
def demoStages : List ServiceStage :=
  [{ id := "a", progress := 10 }, { id := "b", progress := 50 }]

/-- States reachable by next_stage / increment_substep within one
invocation: either the fresh state, or the tracker sits on position k of the
full stage list with its substep counter in range. -/
def TrackerReach (service_stages : List ServiceStage) (st : TrackerState) : Prop :=
  st = initialTrackerState ∨
  ∃ k : ℕ, k < (get_all_stages service_stages).length ∧
    st.current_stage_index = (k : ℤ) ∧
    st.current_stage_id = some (((get_all_stages service_stages).getD k default).id) ∧
    0 ≤ st.current_substep ∧
    (0 < st.current_total_substeps → st.current_substep ≤ st.current_total_substeps) ∧
    (st.current_total_substeps ≤ 0 → st.current_substep = 0)

/-- Base progress of position k of the full stage list. -/
def stage_progress_at (service_stages : List ServiceStage) (k : ℕ) : ℤ :=
  ((get_all_stages service_stages).getD k default).progress

/-- The substep interpolation formula of get_current_progress: base progress
plus the substep fraction of the gap to the next stage's base progress,
truncated by int() and capped at 100. -/
def interpProgress (pk pk1 sub tot : ℤ) : ℤ :=
  min 100 (pyInt ((pk : ℚ) + ((sub : ℚ) / (tot : ℚ)) * ((pk1 : ℚ) - (pk : ℚ))))

/-! ## RPC consumer (src/transport/rabbitmq/consumer.py) and dispatch
(src/transport/json_rpc/dispatcher.py)

JSONRPCDispatcher.handle_request is an async def, but RPCConsumer.on_message
calls it WITHOUT await, so what flows onward as response_body is the
coroutine object itself and none of the dispatcher's body ever runs.
_send_response then evaluates response_body.encode(); on a coroutine object
that raises AttributeError, which _send_response's own except block catches
and logs, publishing nothing; since _send_response swallows its errors and
nothing else after the body decode raises, on_message's outer except block
(the one that would build a -32603 reply) is never reached on this path.
The embedding models the value flowing down the response path explicitly —
a string (an awaited call's result) or the coroutine object — and, for
comparison, what an awaited dispatch would have returned.  Response bodies
are embedded abstractly as RpcResponse values rather than JSON strings;
IncomingMessage.body is the already-decoded body string. -/

/-- Fields of an incoming broker message used by the consumer. -/
structure IncomingMessage where
  body : String
  reply_to : Option String
  correlation_id : Option String
deriving DecidableEq, Repr

/-- Abstract JSON-RPC response body: a result, or a structured error
object with code, message and optional data. -/
inductive RpcResponse
  | result (value : String)
  | rpcError (code : ℤ) (message : String) (data : Option String)
deriving DecidableEq, Repr

/-- A message published back to the broker: routing key (the reply_to
address), response body, and the correlation_id copied from the request. -/
structure OutgoingMessage where
  routing_key : String
  response : RpcResponse
  correlation_id : Option String
deriving DecidableEq, Repr

/-- The Python value the consumer passes down its response path: the
response an awaited handle_request call would produce, or the un-run
coroutine object that calling an async def without await returns. -/
inductive ResponseValue
  | strValue (response : RpcResponse)
  | coroutine
deriving DecidableEq, Repr

/-- The call response_body = self.dispatcher.handle_request(request_body)
as written in RPCConsumer.on_message: handle_request is async and the call
carries no await, so it returns the coroutine object immediately — the
dispatcher's body, and with it jsonrpcserver's dispatch, never executes. -/
def handle_request_unawaited (_request_body : String) : ResponseValue :=
  .coroutine

/-- Embedding of RPCConsumer._send_response: the list of messages it
publishes.  It builds Message(body=response_body.encode(), ...) and
publishes it; when response_body is the coroutine object, .encode() raises
AttributeError inside the method's try block, whose except catches and logs
it — nothing is published and nothing propagates to the caller. -/
def send_response (reply_to : String) (response_body : ResponseValue)
    (correlation_id : Option String) : List OutgoingMessage :=
  match response_body with
  | .strValue response => [⟨reply_to, response, correlation_id⟩]
  | .coroutine => []

/-- Embedding of RPCConsumer.on_message as written: the list of messages it
publishes for one incoming (successfully decoded) message.  The dispatcher
call is not awaited, so response_body is the coroutine object; when the
request carries a reply_to, _send_response is invoked on that coroutine;
the outer except block is unreachable here because _send_response swallows
its own exceptions and no statement after the decode raises. -/
def on_message (message : IncomingMessage) : List OutgoingMessage :=
  let response_body := handle_request_unawaited message.body
  match message.reply_to with
  | some reply_to => send_response reply_to response_body message.correlation_id
  | none => []

/-- The consumer loop over a queue of messages: each is processed by
on_message independently (message.process() scopes each job). -/
def consume_messages (messages : List IncomingMessage) : List OutgoingMessage :=
  messages.flatMap on_message

/-- Modelled from the spec: the dispatch step that JSONRPCDispatcher's
handle_request would perform if it were awaited, via the third-party
jsonrpcserver async_dispatch (not part of the repository sources).  Per
JSON-RPC 2.0, a method absent from the registry yields a Method-not-found
error response (-32601); a registered method is invoked and an exception it
raises (the dispatcher wrappers re-raise capability failures as
ServiceExecutionError "Service execution failed: ...") yields a
Server-error response; both are returned as response values, never raised.
In the program as written this code is never reached, because the consumer
never awaits the coroutine. -/
def dispatch_request (registry : List (String × (String → Except String String)))
    (method : String) (params : String) : Except String RpcResponse :=
  match registry.find? (fun entry => entry.1 == method) with
  | none => .ok (.rpcError (-32601) "Method not found" none)
  | some entry =>
    match entry.2 params with
    | .ok value => .ok (.result value)
    | .error e => .ok (.rpcError (-32000) "Server error" (some ("Service execution failed: " ++ e)))

/-! ## RPC producer (src/transport/rabbitmq/producer.py)

RPCProducer.call runs entirely inside async with self._lock; its suspension
points split it into atomic blocks: (acquire the lock; create and register
the future; start publishing), (finish publishing; start awaiting the
future), and the wake-up after the future resolves or the timeout fires,
which pops the future from _futures and releases the lock.  _on_response and
close() run as further atomic blocks of the same event loop.  The model is a
labelled transition system over those blocks, with one state per producer
and an arbitrary finite set of client calls.  Correlation ids are embedded
as the call index (uuid4 values are distinct for distinct calls). -/

/-- State of one entry of the _futures table. -/
inductive FutureState
  | pending
  | resolved (value : String)
  | rejected (code : ℤ) (message : String)
deriving DecidableEq, Repr

/-- Body of a reply message as parsed by _on_response: a result, or a
JSON-RPC error object. -/
inductive ReplyBody
  | resultBody (value : String)
  | errorBody (code : ℤ) (message : String)
deriving DecidableEq, Repr

/-- Where one call() invocation currently is. -/
inductive CallPhase
  | notStarted
  | waitingLock
  | publishing
  | awaitingReply
  | doneSuccess (value : String)
  | doneRpcError (code : ℤ) (message : String)
  | doneTimeout
deriving DecidableEq, Repr

/-- Producer state: the lock owner, the _futures table (keyed by correlation
id), the phase of every call, whether the reply consumer is still
registered, and the correlation ids published so far. -/
structure ProducerState where
  lock_holder : Option ℕ
  futures : List (ℕ × FutureState)
  calls : List CallPhase
  listener_active : Bool
  published : List ℕ
deriving DecidableEq, Repr

/-- Fresh producer with n client calls, none started: empty futures table,
free lock, live reply listener. -/
def producerInit (n : ℕ) : ProducerState :=
  { lock_holder := none, futures := [], calls := List.replicate n .notStarted,
    listener_active := true, published := [] }

/-- Python dict assignment d[k] = v on the futures table. -/
def futSet (key : ℕ) (v : FutureState) :
    List (ℕ × FutureState) → List (ℕ × FutureState)
  | [] => [(key, v)]
  | e :: t => if e.1 = key then (key, v) :: t else e :: futSet key v t

/-- Python dict lookup d.get(k) on the futures table. -/
def futGet (key : ℕ) : List (ℕ × FutureState) → Option FutureState
  | [] => none
  | e :: t => if e.1 = key then some e.2 else futGet key t

/-- Python dict removal d.pop(k, None) on the futures table. -/
def futPop (key : ℕ) : List (ℕ × FutureState) → List (ℕ × FutureState)
  | [] => []
  | e :: t => if e.1 = key then t else e :: futPop key t

/-- Phase of call i (calls beyond the population are never started). -/
def callPhase (s : ProducerState) (i : ℕ) : CallPhase :=
  s.calls.getD i .notStarted

/-- Atomic transitions of the producer system. -/
inductive ProducerEvent
  | startCall (i : ℕ)
  | acquireLock (i : ℕ)
  | publishDone (i : ℕ)
  | deliverReply (c : ℕ) (body : ReplyBody)
  | wake (i : ℕ)
  | timeoutFire (i : ℕ)
  | closeProducer
deriving DecidableEq, Repr

/-- One atomic step of the producer system; none when the event is not
enabled in the given state.

startCall: a client invokes call(), which immediately awaits the lock.
acquireLock: async with self._lock succeeds (lock free), the correlation id
is generated, the future is created and stored in _futures, and publishing
begins.  publishDone: the publish await completes and the call suspends in
asyncio.wait_for on its future.  deliverReply: _on_response runs on an
incoming reply; with no matching table entry it logs and returns (dropping
the reply); on a pending entry it sets the future's result or exception; on
an already-completed future set_result / set_exception raise
InvalidStateError, leaving the table unchanged.  wake: the awaiting call
resumes with its future's value or exception, pops its entry in the finally
block and releases the lock.  timeoutFire: asyncio.wait_for raises
TimeoutError while the future is still pending; the finally block pops the
entry and the lock is released.  closeProducer: close() cancels the reply
consumer. -/
def producerStep (s : ProducerState) : ProducerEvent → Option ProducerState
  | .startCall i =>
    if callPhase s i = .notStarted then
      some { s with calls := s.calls.set i .waitingLock }
    else none
  | .acquireLock i =>
    if callPhase s i = .waitingLock ∧ s.lock_holder = none then
      some { s with lock_holder := some i,
                    futures := futSet i .pending s.futures,
                    calls := s.calls.set i .publishing }
    else none
  | .publishDone i =>
    if callPhase s i = .publishing then
      some { s with calls := s.calls.set i .awaitingReply,
                    published := s.published ++ [i] }
    else none
  | .deliverReply c body =>
    if s.listener_active then
      match futGet c s.futures with
      | none => some s
      | some .pending =>
        let outcome :=
          match body with
          | .resultBody v => FutureState.resolved v
          | .errorBody code msg => FutureState.rejected code msg
        some { s with futures := futSet c outcome s.futures }
      | some _ => some s
    else none
  | .wake i =>
    match callPhase s i, futGet i s.futures with
    | .awaitingReply, some (.resolved v) =>
      some { s with lock_holder := none, futures := futPop i s.futures,
                    calls := s.calls.set i (.doneSuccess v) }
    | .awaitingReply, some (.rejected code msg) =>
      some { s with lock_holder := none, futures := futPop i s.futures,
                    calls := s.calls.set i (.doneRpcError code msg) }
    | _, _ => none
  | .timeoutFire i =>
    if callPhase s i = .awaitingReply ∧ futGet i s.futures = some .pending then
      some { s with lock_holder := none, futures := futPop i s.futures,
                    calls := s.calls.set i .doneTimeout }
    else none
  | .closeProducer => some { s with listener_active := false }

/-- Run a sequence of events, failing if any step is not enabled. -/
def producerExec (s : ProducerState) : List ProducerEvent → Option ProducerState
  | [] => some s
  | e :: rest =>
    match producerStep s e with
    | some s2 => producerExec s2 rest
    | none => none

/-- A call currently holds the producer's critical section: it is composing
or publishing its request, or awaiting its reply. -/
def activeCall (s : ProducerState) (i : ℕ) : Prop :=
  callPhase s i = .publishing ∨ callPhase s i = .awaitingReply

instance (s : ProducerState) (i : ℕ) : Decidable (activeCall s i) := by
  unfold activeCall; infer_instance

/-- Keys of the futures table. -/
def futKeys (l : List (ℕ × FutureState)) : List ℕ := l.map (fun e => e.1)

/-- Inductive invariant of the producer system: every active call owns the
lock; table keys are distinct; every key belongs to an active call. -/
def ProducerInv (s : ProducerState) : Prop :=
  (∀ i, activeCall s i → s.lock_holder = some i) ∧
  (futKeys s.futures).Nodup ∧
  (∀ k, k ∈ futKeys s.futures → activeCall s k)

/-! ## Auxiliary lemmas -/

theorem pyInt_of_nonneg (q : ℚ) (h : 0 ≤ q) : pyInt q = ⌊q⌋ := by
  unfold pyInt
  rw [if_neg (not_lt.2 h)]

theorem find?_id_eq_none (l : List ServiceStage) (x : String)
    (h : x ∉ l.map (fun s => s.id)) : l.find? (fun s => s.id == x) = none := by
  rw [List.find?_eq_none]
  intro a ha
  simp only [beq_iff_eq]
  intro hax
  exact h (List.mem_map.2 ⟨a, ha, hax⟩)

theorem findIdx?_id_eq_none (l : List ServiceStage) (x : String)
    (h : x ∉ l.map (fun s => s.id)) :
    ∀ i, List.findIdx? (fun s => s.id == x) l i = none := by
  induction l with
  | nil => intro i; rfl
  | cons a t ih =>
    intro i
    have ha : (a.id == x) = false := by
      simp only [beq_eq_false_iff_ne, ne_eq]
      intro hax
      exact h (by simp [hax])
    simp only [List.findIdx?, ha, cond_false, Bool.false_eq_true, if_false]
    exact ih (fun hx => h (by simp at hx ⊢; exact Or.inr hx)) (i + 1)

theorem findIdx?_id_nodup (l : List ServiceStage) :
    ∀ (k : ℕ), k < l.length → (l.map (fun s => s.id)).Nodup →
    ∀ i, List.findIdx? (fun s => s.id == (l.getD k default).id) l i = some (i + k) := by
  induction l with
  | nil => intro k hk; simp at hk
  | cons a t ih =>
    intro k hk hn i
    rw [List.map_cons, List.nodup_cons] at hn
    match k with
    | 0 =>
      simp [List.findIdx?, List.getD_cons_zero]
    | k + 1 =>
      have hkt : k < t.length := by simpa using hk
      have hmem : (t.getD k default).id ∈ t.map (fun s => s.id) := by
        rw [List.getD_eq_getElem t default hkt]
        exact List.mem_map.2 ⟨t[k], List.getElem_mem hkt, rfl⟩
      have ha : (a.id == (t.getD k default).id) = false := by
        simp only [beq_eq_false_iff_ne, ne_eq]
        intro hax
        exact hn.1 (by rw [hax]; exact hmem)
      simp only [List.getD_cons_succ, List.findIdx?, ha, Bool.false_eq_true, if_false]
      have h2 := ih k hkt hn.2 (i + 1)
      rw [h2]
      congr 1
      omega

theorem find?_id_nodup (l : List ServiceStage) :
    ∀ (k : ℕ), k < l.length → (l.map (fun s => s.id)).Nodup →
    l.find? (fun s => s.id == (l.getD k default).id) = some (l.getD k default) := by
  induction l with
  | nil => intro k hk; simp at hk
  | cons a t ih =>
    intro k hk hn
    rw [List.map_cons, List.nodup_cons] at hn
    match k with
    | 0 =>
      simp [List.find?, List.getD_cons_zero]
    | k + 1 =>
      have hkt : k < t.length := by simpa using hk
      have hmem : (t.getD k default).id ∈ t.map (fun s => s.id) := by
        rw [List.getD_eq_getElem t default hkt]
        exact List.mem_map.2 ⟨t[k], List.getElem_mem hkt, rfl⟩
      have ha : (a.id == (t.getD k default).id) = false := by
        simp only [beq_eq_false_iff_ne, ne_eq]
        intro hax
        exact hn.1 (by rw [hax]; exact hmem)
      simp only [List.getD_cons_succ, List.find?, ha]
      exact ih k hkt hn.2

theorem progress_loop_iff_chain (l : List ServiceStage) :
    ((List.range' 1 (l.length - 2)).all fun i =>
        decide ((l.getD (i - 1) default).progress < (l.getD i default).progress)) = true ↔
      List.Chain' (fun a b => a.progress < b.progress) l.dropLast := by
  rw [List.all_eq_true, List.chain'_iff_get]
  constructor
  · intro h j hj
    rw [List.length_dropLast] at hj
    have h2 := h (j + 1) (by rw [List.mem_range'_1]; omega)
    rw [decide_eq_true_iff] at h2
    simp only [Nat.add_sub_cancel] at h2
    rw [List.getD_eq_getElem l default (show j < l.length by omega),
        List.getD_eq_getElem l default (show j + 1 < l.length by omega)] at h2
    simp only [List.get_eq_getElem, List.getElem_dropLast]
    exact h2
  · intro h i hi
    rw [List.mem_range'_1] at hi
    obtain ⟨j, rfl⟩ : ∃ j, i = j + 1 := ⟨i - 1, by omega⟩
    rw [decide_eq_true_iff]
    have h3 := h j (by rw [List.length_dropLast]; omega)
    simp only [List.get_eq_getElem, List.getElem_dropLast] at h3
    simp only [Nat.add_sub_cancel]
    rw [List.getD_eq_getElem l default (show j < l.length by omega),
        List.getD_eq_getElem l default (show j + 1 < l.length by omega)]
    exact h3

theorem dedup_length_iff_nodup (l : List String) :
    (l.length == l.dedup.length) = true ↔ l.Nodup := by
  rw [beq_iff_eq]
  constructor
  · intro h
    have hs := List.dedup_sublist l
    have he : l.dedup = l := hs.eq_of_length h.symm
    rw [← he]
    exact List.nodup_dedup l
  · intro h
    rw [List.dedup_eq_self.2 h]

theorem validate_stage_sequence_iff (service_stages : List ServiceStage) :
    validate_stage_sequence service_stages = true ↔
      (List.Chain' (fun a b => a.progress < b.progress)
          (get_all_stages service_stages).dropLast ∧
        ((get_all_stages service_stages).map (fun s => s.id)).Nodup) := by
  simp only [validate_stage_sequence, Bool.and_eq_true]
  rw [progress_loop_iff_chain, dedup_length_iff_nodup]

theorem length_get_all_stages (service_stages : List ServiceStage) :
    (get_all_stages service_stages).length = service_stages.length + 2 := by
  simp [get_all_stages]

theorem getD_get_all_stages_last (service_stages : List ServiceStage) :
    (get_all_stages service_stages).getD (service_stages.length + 1) default =
      ({ id := "complete", progress := 100 } : ServiceStage) := by
  have hlen : service_stages.length + 1 < (get_all_stages service_stages).length := by
    rw [length_get_all_stages]
    omega
  rw [List.getD_eq_getElem _ default hlen]
  simp only [get_all_stages, List.getElem_cons_succ]
  exact List.getElem_concat_length _ _ _ rfl (by simp)

theorem get_all_stages_wf (service_stages : List ServiceStage)
    (hw : ∀ s ∈ service_stages, s.wf) :
    ∀ k, k < (get_all_stages service_stages).length →
      0 ≤ ((get_all_stages service_stages).getD k default).progress ∧
        ((get_all_stages service_stages).getD k default).progress ≤ 100 := by
  intro k hk
  have hmem : (get_all_stages service_stages).getD k default ∈ get_all_stages service_stages := by
    rw [List.getD_eq_getElem _ default hk]
    exact List.getElem_mem hk
  rcases (by simpa [get_all_stages] using hmem :
      (get_all_stages service_stages).getD k default =
          ({ id := "initializing", progress := 0 } : ServiceStage) ∨
        (get_all_stages service_stages).getD k default ∈ service_stages ∨
        (get_all_stages service_stages).getD k default =
          ({ id := "complete", progress := 100 } : ServiceStage)) with h | h | h
  · rw [h]
    norm_num
  · exact hw _ h
  · rw [h]
    norm_num

theorem progress_adjacent_mono (service_stages : List ServiceStage)
    (hv : validate_stage_sequence service_stages = true)
    (hw : ∀ s ∈ service_stages, s.wf) :
    ∀ k, k + 1 < (get_all_stages service_stages).length →
      ((get_all_stages service_stages).getD k default).progress ≤
        ((get_all_stages service_stages).getD (k + 1) default).progress := by
  intro k hk
  have hchain := ((validate_stage_sequence_iff service_stages).1 hv).1
  rw [List.chain'_iff_get] at hchain
  by_cases hcase : k + 2 < (get_all_stages service_stages).length
  · have h := hchain k (by rw [List.length_dropLast]; omega)
    simp only [List.get_eq_getElem, List.getElem_dropLast] at h
    rw [List.getD_eq_getElem _ default (by omega), List.getD_eq_getElem _ default (by omega)]
    exact le_of_lt h
  · have hlen := length_get_all_stages service_stages
    have hk1 : k + 1 = service_stages.length + 1 := by omega
    rw [hk1, getD_get_all_stages_last]
    exact (get_all_stages_wf service_stages hw k (by omega)).2

/-- C7: validate_stage_sequence accepts a stage definition exactly when the
progress values are strictly increasing along the full stage list with the
terminal complete stage excluded, and the ids of the full list (implicit
initializing and complete included) are pairwise distinct; so any list with
a non-increase among checked stages or a duplicate id is rejected. -/
theorem validate_stage_sequence_accepts_iff (service_stages : List ServiceStage) :
    validate_stage_sequence service_stages = true ↔
      (List.Chain' (fun a b => a.progress < b.progress)
          (get_all_stages service_stages).dropLast ∧
        ((get_all_stages service_stages).map (fun s => s.id)).Nodup) :=
  validate_stage_sequence_iff service_stages

/-- C9 counterexample: the payload with status "success", progress 50 and
stage "complete" is classified "complete" by the code, while the rule stated
by the claim (status "success" with progress 100, else "progress") would
classify it "progress". -/
theorem detect_event_type_counterexample :
    detect_event_type ⟨some "success", some 50, some "complete", false⟩ = "complete" ∧
    detect_event_type_spec ⟨some "success", some 50, some "complete", false⟩ = "progress" ∧
    detect_event_type ⟨some "success", some 50, some "complete", false⟩ ≠
      detect_event_type_spec ⟨some "success", some 50, some "complete", false⟩ := by
  decide

/-- C9 amended: the formatter classifies every payload into exactly one of
the three wire kinds from payload shape alone: it is "error" exactly when
the status is "error" or an error key is present (this wins over everything
else); "complete" exactly when it is not an error and the status is
"success" with progress 100 or stage "complete"; and "progress" in every
remaining case. -/
theorem detect_event_type_trichotomy (message : SSEMessageShape) :
    (detect_event_type message = "error" ↔
      (message.status.getD "processing" = "error" ∨ message.hasErrorKey = true)) ∧
    (detect_event_type message = "complete" ↔
      (¬(message.status.getD "processing" = "error" ∨ message.hasErrorKey = true) ∧
        message.status.getD "processing" = "success" ∧
        (message.progress.getD 0 = 100 ∨ message.stage.getD "" = "complete"))) ∧
    (detect_event_type message = "progress" ↔
      (¬(message.status.getD "processing" = "error" ∨ message.hasErrorKey = true) ∧
        ¬(message.status.getD "processing" = "success" ∧
          (message.progress.getD 0 = 100 ∨ message.stage.getD "" = "complete")))) := by
  unfold detect_event_type
  by_cases h1 : message.status.getD "processing" = "error" ∨ message.hasErrorKey = true
  · have hb : (message.status.getD "processing" == "error" || message.hasErrorKey) = true := by
      rcases h1 with h | h
      · simp [h]
      · simp [h]
    simp [hb, h1]
  · have hb : (message.status.getD "processing" == "error" || message.hasErrorKey) = false := by
      push_neg at h1
      simp [h1.1, h1.2]
    by_cases h2 : message.status.getD "processing" = "success" ∧
        (message.progress.getD 0 = 100 ∨ message.stage.getD "" = "complete")
    · have hb2 : (message.status.getD "processing" == "success" &&
          (message.progress.getD 0 == 100 || message.stage.getD "" == "complete")) = true := by
        rcases h2 with ⟨ha, hbc⟩
        rcases hbc with h | h <;> simp [ha, h]
      have hek : message.hasErrorKey = false := by
        rcases Bool.eq_false_or_eq_true message.hasErrorKey with h | h
        · exact absurd (Or.inr h) h1
        · exact h
      simp [hb, hb2, h1, h2, hek]
    · have hb2 : (message.status.getD "processing" == "success" &&
          (message.progress.getD 0 == 100 || message.stage.getD "" == "complete")) = false := by
        rw [Bool.eq_false_iff]
        intro hc
        apply h2
        simpa only [Bool.and_eq_true, Bool.or_eq_true, beq_iff_eq] using hc
      simp [hb, hb2, h1, h2]

/-- C2, code evaluated at the failing input: on a freshly initialized
tracker the first next_stage call reports success, but the stage it enters
is position 0 of the full stage list — the implicit initializing stage —
for every stage definition and substep count, not the first declared
stage. -/
theorem next_stage_first_call_enters_initializing (service_stages : List ServiceStage)
    (total_substeps : ℤ) :
    (next_stage service_stages initialTrackerState total_substeps).1.current_stage_id =
        some "initializing" ∧
    (next_stage service_stages initialTrackerState total_substeps).1.current_stage_index = 0 ∧
    (next_stage service_stages initialTrackerState total_substeps).2 = true := by
  simp [next_stage, initialTrackerState, get_all_stages]

/-- C10: set_stage with an id absent from the stage definition still records
that id as the current stage, keeps the stored stage index unchanged, and a
following get_current_progress with no active substeps returns the
unknown-stage sentinel -1. -/
theorem set_stage_unknown_id (service_stages : List ServiceStage) (st : TrackerState)
    (stage_id : String)
    (h : stage_id ∉ (get_all_stages service_stages).map (fun s => s.id)) :
    (set_stage service_stages st stage_id 0).current_stage_id = some stage_id ∧
    (set_stage service_stages st stage_id 0).current_stage_index = st.current_stage_index ∧
    get_current_progress service_stages (set_stage service_stages st stage_id 0) = -1 := by
  have hfi := findIdx?_id_eq_none (get_all_stages service_stages) stage_id h 0
  have hf := find?_id_eq_none (get_all_stages service_stages) stage_id h
  refine ⟨rfl, ?_, ?_⟩
  · simp [set_stage, hfi]
  · simp [get_current_progress, set_stage, get_progress_for_stage, get_stage_by_id, hf]

/-- Witness for C10 at a concrete input: the id "zzz" occurs nowhere in the
demo definition, and the tracker then reports -1. -/
theorem set_stage_unknown_id_witness :
    ("zzz" ∉ (get_all_stages demoStages).map (fun s => s.id)) ∧
    get_current_progress demoStages (set_stage demoStages initialTrackerState "zzz" 0) = -1 := by
  refine ⟨by decide, ?_⟩
  exact (set_stage_unknown_id demoStages initialTrackerState "zzz" (by decide)).2.2

theorem get_progress_for_stage_getD (service_stages : List ServiceStage) (k : ℕ)
    (hk : k < (get_all_stages service_stages).length)
    (hn : ((get_all_stages service_stages).map (fun s => s.id)).Nodup) :
    get_progress_for_stage service_stages
        (((get_all_stages service_stages).getD k default).id) =
      stage_progress_at service_stages k := by
  unfold get_progress_for_stage get_stage_by_id stage_progress_at
  rw [find?_id_nodup _ k hk hn]

theorem get_current_progress_at_stage (service_stages : List ServiceStage)
    (st : TrackerState) (k : ℕ)
    (hn : ((get_all_stages service_stages).map (fun s => s.id)).Nodup)
    (hk : k < (get_all_stages service_stages).length)
    (hid : st.current_stage_id = some (((get_all_stages service_stages).getD k default).id)) :
    get_current_progress service_stages st =
      if 0 < st.current_total_substeps ∧ 0 < st.current_substep ∧
          k + 1 < (get_all_stages service_stages).length then
        interpProgress (stage_progress_at service_stages k)
          (stage_progress_at service_stages (k + 1))
          st.current_substep st.current_total_substeps
      else stage_progress_at service_stages k := by
  unfold get_current_progress
  rw [hid]
  simp only [get_progress_for_stage_getD service_stages k hk hn]
  by_cases hts : 0 < st.current_total_substeps ∧ 0 < st.current_substep
  · rw [if_pos hts, findIdx?_id_nodup (get_all_stages service_stages) k hk hn 0]
    simp only [Nat.zero_add]
    by_cases hk1 : k + 1 < (get_all_stages service_stages).length
    · rw [if_pos (show (k : ℤ) < ((get_all_stages service_stages).length : ℤ) - 1 by
        omega)]
      rw [get_progress_for_stage_getD service_stages (k + 1) hk1 hn,
        if_pos ⟨hts.1, hts.2, hk1⟩]
      unfold interpProgress
      congr 2
      push_cast
      ring
    · rw [if_neg (show ¬((k : ℤ) < ((get_all_stages service_stages).length : ℤ) - 1) by
        omega)]
      rw [if_neg (by tauto)]
  · rw [if_neg hts, if_neg (by tauto)]

theorem interp_lower (pk pk1 sub tot : ℤ) (h100 : pk ≤ 100) (h0 : 0 ≤ pk)
    (hle : pk ≤ pk1) (ht : 0 < tot) (hs : 0 ≤ sub) :
    pk ≤ interpProgress pk pk1 sub tot := by
  unfold interpProgress
  have hq : (0 : ℚ) ≤ ((sub : ℚ) / (tot : ℚ)) * ((pk1 : ℚ) - (pk : ℚ)) := by
    apply mul_nonneg
    · apply div_nonneg
      · exact_mod_cast hs
      · exact_mod_cast ht.le
    · rw [sub_nonneg]
      exact_mod_cast hle
  rw [pyInt_of_nonneg _ (by
    have : (0 : ℚ) ≤ (pk : ℚ) := by exact_mod_cast h0
    linarith)]
  refine le_min h100 ?_
  rw [Int.le_floor]
  linarith

theorem interp_upper (pk pk1 sub tot : ℤ) (h0 : 0 ≤ pk)
    (hle : pk ≤ pk1) (ht : 0 < tot) (hs0 : 0 ≤ sub) (hst : sub ≤ tot) :
    interpProgress pk pk1 sub tot ≤ pk1 := by
  unfold interpProgress
  have htq : (0 : ℚ) < (tot : ℚ) := by exact_mod_cast ht
  have hdiv : (sub : ℚ) / (tot : ℚ) ≤ 1 := by
    rw [div_le_one htq]
    exact_mod_cast hst
  have hdiv0 : (0 : ℚ) ≤ (sub : ℚ) / (tot : ℚ) := by
    apply div_nonneg
    · exact_mod_cast hs0
    · exact htq.le
  have hsub : (0 : ℚ) ≤ (pk1 : ℚ) - (pk : ℚ) := by
    rw [sub_nonneg]
    exact_mod_cast hle
  have hq : ((sub : ℚ) / (tot : ℚ)) * ((pk1 : ℚ) - (pk : ℚ)) ≤ (pk1 : ℚ) - (pk : ℚ) :=
    mul_le_of_le_one_left hsub hdiv
  have hnn : (0 : ℚ) ≤ (pk : ℚ) + ((sub : ℚ) / (tot : ℚ)) * ((pk1 : ℚ) - (pk : ℚ)) := by
    have : (0 : ℚ) ≤ (pk : ℚ) := by exact_mod_cast h0
    positivity
  refine le_trans (min_le_right _ _) ?_
  rw [pyInt_of_nonneg _ hnn]
  have hfl : (pk : ℚ) + ((sub : ℚ) / (tot : ℚ)) * ((pk1 : ℚ) - (pk : ℚ)) ≤ ((pk1 : ℤ) : ℚ) := by
    linarith
  calc ⌊(pk : ℚ) + ((sub : ℚ) / (tot : ℚ)) * ((pk1 : ℚ) - (pk : ℚ))⌋
      ≤ ⌊((pk1 : ℤ) : ℚ)⌋ := Int.floor_mono hfl
    _ = pk1 := Int.floor_intCast pk1

theorem pyInt_mono (x y : ℚ) (h : x ≤ y) : pyInt x ≤ pyInt y := by
  unfold pyInt
  split_ifs with hx hy hy
  · exact Int.ceil_mono h
  · have h1 : (⌈x⌉ : ℤ) ≤ 0 := Int.ceil_le.2 (by exact_mod_cast hx.le)
    have h2 : (0 : ℤ) ≤ ⌊y⌋ := Int.floor_nonneg.2 (not_lt.1 hy)
    omega
  · exact absurd (lt_of_le_of_lt h hy) hx
  · exact Int.floor_mono h

theorem interp_mono (pk pk1 sub sub2 tot : ℤ) (hle : pk ≤ pk1) (ht : 0 < tot)
    (h12 : sub ≤ sub2) :
    interpProgress pk pk1 sub tot ≤ interpProgress pk pk1 sub2 tot := by
  unfold interpProgress
  have htq : (0 : ℚ) < (tot : ℚ) := by exact_mod_cast ht
  have hsub : (0 : ℚ) ≤ (pk1 : ℚ) - (pk : ℚ) := by
    rw [sub_nonneg]
    exact_mod_cast hle
  have hdivle : (sub : ℚ) / (tot : ℚ) ≤ (sub2 : ℚ) / (tot : ℚ) := by
    rw [div_le_div_iff_of_pos_right htq]
    exact_mod_cast h12
  refine min_le_min le_rfl (pyInt_mono _ _ ?_)
  have hmul := mul_le_mul_of_nonneg_right hdivle hsub
  linarith

theorem getD_get_all_stages_zero (service_stages : List ServiceStage) :
    (get_all_stages service_stages).getD 0 default =
      ({ id := "initializing", progress := 0 } : ServiceStage) := by
  simp [get_all_stages]

theorem next_stage_initial (service_stages : List ServiceStage) (t : ℤ) :
    (next_stage service_stages initialTrackerState t).1 =
      { current_stage_id := some "initializing", current_stage_index := 0,
        current_substep := 0, current_total_substeps := t } := by
  simp [next_stage, initialTrackerState, get_all_stages]

theorem next_stage_at_stage (service_stages : List ServiceStage) (st : TrackerState)
    (k : ℕ) (t : ℤ) (hidx : st.current_stage_index = (k : ℤ)) :
    (next_stage service_stages st t).1 =
      if k + 1 < (get_all_stages service_stages).length then
        { current_stage_id := some (((get_all_stages service_stages).getD (k + 1) default).id),
          current_stage_index := ((k + 1 : ℕ) : ℤ),
          current_substep := 0, current_total_substeps := t }
      else st := by
  simp only [next_stage]
  rw [hidx]
  by_cases hk1 : k + 1 < (get_all_stages service_stages).length
  · rw [if_neg (by omega : ¬((k : ℤ) = -1)),
      if_pos (show (k : ℤ) < ((get_all_stages service_stages).length : ℤ) - 1 by
        omega),
      if_pos hk1]
    have htn : ((k : ℤ) + 1).toNat = k + 1 := by omega
    simp [htn]
  · rw [if_neg (by omega : ¬((k : ℤ) = -1)),
      if_neg (show ¬((k : ℤ) < ((get_all_stages service_stages).length : ℤ) - 1) by
        omega),
      if_neg hk1]

theorem trackerReach_applyTrackOp (service_stages : List ServiceStage) (st : TrackerState)
    (op : TrackOp) (hr : TrackerReach service_stages st) :
    TrackerReach service_stages (applyTrackOp service_stages st op) := by
  rcases op with t | _
  · rcases hr with h0 | ⟨k, hk, hidx, hid, hs0, hst, hst0⟩
    · subst h0
      right
      rw [applyTrackOp, next_stage_initial]
      refine ⟨0, by rw [length_get_all_stages]; omega, rfl, ?_, le_refl 0, ?_, ?_⟩
      · rw [getD_get_all_stages_zero]
      · intro _
        exact le_of_lt (by assumption)
      · intro _
        rfl
    · rw [applyTrackOp, next_stage_at_stage service_stages st k t hidx]
      by_cases hk1 : k + 1 < (get_all_stages service_stages).length
      · rw [if_pos hk1]
        right
        refine ⟨k + 1, hk1, rfl, rfl, le_refl 0, ?_, ?_⟩
        · intro h
          exact le_of_lt h
        · intro _
          rfl
      · rw [if_neg hk1]
        exact Or.inr ⟨k, hk, hidx, hid, hs0, hst, hst0⟩
  · rcases hr with h0 | ⟨k, hk, hidx, hid, hs0, hst, hst0⟩
    · subst h0
      rw [applyTrackOp, increment_substep]
      rw [if_neg (by norm_num [initialTrackerState])]
      exact Or.inl rfl
    · rw [applyTrackOp, increment_substep]
      by_cases htot : 0 < st.current_total_substeps
      · rw [if_pos htot]
        right
        refine ⟨k, hk, hidx, hid, ?_, ?_, ?_⟩
        · simp only
          omega
        · intro _
          simp only
          omega
        · intro h
          simp only at h
          omega
      · rw [if_neg htot]
        exact Or.inr ⟨k, hk, hidx, hid, hs0, hst, hst0⟩

theorem progress_mono_applyTrackOp (service_stages : List ServiceStage)
    (hv : validate_stage_sequence service_stages = true)
    (hw : ∀ s ∈ service_stages, s.wf)
    (st : TrackerState) (op : TrackOp) (hr : TrackerReach service_stages st) :
    get_current_progress service_stages st ≤
      get_current_progress service_stages (applyTrackOp service_stages st op) := by
  have hn : ((get_all_stages service_stages).map (fun s => s.id)).Nodup :=
    ((validate_stage_sequence_iff service_stages).1 hv).2
  rcases hr with h0 | ⟨k, hk, hidx, hid, hs0, hst, hst0⟩
  · subst h0
    have h1 : get_current_progress service_stages initialTrackerState = 0 := by
      simp [get_current_progress, initialTrackerState]
    rcases op with t | _
    · rw [applyTrackOp, next_stage_initial, h1]
      have h2 : get_current_progress service_stages
          { current_stage_id := some "initializing", current_stage_index := 0,
            current_substep := 0, current_total_substeps := t } =
          stage_progress_at service_stages 0 := by
        rw [get_current_progress_at_stage service_stages _ 0 hn
          (by rw [length_get_all_stages]; omega)
          (by rw [getD_get_all_stages_zero])]
        rw [if_neg (by norm_num)]
      rw [h2, stage_progress_at, getD_get_all_stages_zero]
    · rw [applyTrackOp, increment_substep, if_neg (by norm_num [initialTrackerState]), h1]
  · have hwk := get_all_stages_wf service_stages hw k hk
    rcases op with t | _
    · rw [applyTrackOp, next_stage_at_stage service_stages st k t hidx]
      by_cases hk1 : k + 1 < (get_all_stages service_stages).length
      · rw [if_pos hk1]
        have h2 : get_current_progress service_stages
            { current_stage_id := some (((get_all_stages service_stages).getD (k + 1) default).id),
              current_stage_index := ((k + 1 : ℕ) : ℤ),
              current_substep := 0, current_total_substeps := t } =
            stage_progress_at service_stages (k + 1) := by
          rw [get_current_progress_at_stage service_stages _ (k + 1) hn hk1 rfl]
          rw [if_neg (by norm_num)]
        rw [h2, get_current_progress_at_stage service_stages st k hn hk hid]
        by_cases hts : 0 < st.current_total_substeps ∧ 0 < st.current_substep ∧
            k + 1 < (get_all_stages service_stages).length
        · rw [if_pos hts]
          exact interp_upper _ _ _ _ hwk.1 (progress_adjacent_mono service_stages hv hw k hk1)
            hts.1 hs0 (hst hts.1)
        · rw [if_neg hts]
          exact progress_adjacent_mono service_stages hv hw k hk1
      · rw [if_neg hk1]
    · rw [applyTrackOp, increment_substep]
      by_cases htot : 0 < st.current_total_substeps
      · rw [if_pos htot]
        rw [get_current_progress_at_stage service_stages
            { st with current_substep := min (st.current_substep + 1) st.current_total_substeps }
            k hn hk hid,
          get_current_progress_at_stage service_stages st k hn hk hid]
        dsimp only
        have hstt := hst htot
        split_ifs with h1 h2 h2
        · exact interp_mono _ _ _ _ _
            (progress_adjacent_mono service_stages hv hw k h1.2.2) htot (by omega)
        · exact absurd ⟨htot, by omega, h1.2.2⟩ h2
        · exact interp_lower _ _ _ _ hwk.2 hwk.1
            (progress_adjacent_mono service_stages hv hw k h2.2.2) htot (by omega)
        · exact le_refl _
      · rw [if_neg htot]

theorem trackerReach_foldl (service_stages : List ServiceStage) :
    ∀ (ops : List TrackOp) (st : TrackerState), TrackerReach service_stages st →
      TrackerReach service_stages (ops.foldl (applyTrackOp service_stages) st) := by
  intro ops
  induction ops with
  | nil => intro st hr; exact hr
  | cons op rest ih =>
    intro st hr
    exact ih _ (trackerReach_applyTrackOp service_stages st op hr)

theorem progress_mono_foldl (service_stages : List ServiceStage)
    (hv : validate_stage_sequence service_stages = true)
    (hw : ∀ s ∈ service_stages, s.wf) :
    ∀ (ops : List TrackOp) (st : TrackerState), TrackerReach service_stages st →
      get_current_progress service_stages st ≤
        get_current_progress service_stages (ops.foldl (applyTrackOp service_stages) st) := by
  intro ops
  induction ops with
  | nil => intro st _; exact le_refl _
  | cons op rest ih =>
    intro st hr
    calc get_current_progress service_stages st
        ≤ get_current_progress service_stages (applyTrackOp service_stages st op) :=
          progress_mono_applyTrackOp service_stages hv hw st op hr
      _ ≤ _ := ih _ (trackerReach_applyTrackOp service_stages st op hr)

/-- C3: for a stage definition accepted by validate_stage_sequence (whose
declared stages carry the progress bounds enforced by the ServiceStage
constructor), any sequence of next_stage and increment_substep calls of one
invocation yields monotonically non-decreasing get_current_progress values:
extending the call sequence never lowers the reported progress. -/
theorem get_current_progress_monotone (service_stages : List ServiceStage)
    (hv : validate_stage_sequence service_stages = true)
    (hw : ∀ s ∈ service_stages, s.wf)
    (ops more : List TrackOp) :
    get_current_progress service_stages (runTrackOps service_stages ops) ≤
      get_current_progress service_stages (runTrackOps service_stages (ops ++ more)) := by
  rw [runTrackOps, runTrackOps, List.foldl_append]
  exact progress_mono_foldl service_stages hv hw more _
    (trackerReach_foldl service_stages ops initialTrackerState (Or.inl rfl))

/-- Witness for C3 at a concrete input: the demo definition validates, its
stages are well formed, and the progress after one stage advance does not
exceed the progress after further substep and stage operations. -/
theorem get_current_progress_monotone_witness :
    validate_stage_sequence demoStages = true ∧
    (∀ s ∈ demoStages, s.wf) ∧
    get_current_progress demoStages (runTrackOps demoStages [.nextStage 2]) ≤
      get_current_progress demoStages
        (runTrackOps demoStages
          ([.nextStage 2] ++ [.incrementSubstep, .nextStage 4, .incrementSubstep])) :=
  ⟨by decide, by decide,
    get_current_progress_monotone demoStages (by decide) (by decide)
      [.nextStage 2] [.incrementSubstep, .nextStage 4, .incrementSubstep]⟩

/-- C8: when substeps are active (positive substep and total) and the
current stage sits at a non-terminal position k of the full stage list,
get_current_progress returns the linear interpolation between stage k's base
progress and stage (k+1)'s base progress, proportional to
substep/totalSubsteps, truncated to an int and capped at 100. -/
theorem get_current_progress_interpolates (service_stages : List ServiceStage)
    (st : TrackerState) (k : ℕ)
    (hn : ((get_all_stages service_stages).map (fun s => s.id)).Nodup)
    (hk1 : k + 1 < (get_all_stages service_stages).length)
    (hid : st.current_stage_id = some (((get_all_stages service_stages).getD k default).id))
    (ht : 0 < st.current_total_substeps) (hs : 0 < st.current_substep) :
    get_current_progress service_stages st =
      interpProgress (stage_progress_at service_stages k)
        (stage_progress_at service_stages (k + 1))
        st.current_substep st.current_total_substeps := by
  rw [get_current_progress_at_stage service_stages st k hn (by omega) hid]
  rw [if_pos ⟨ht, hs, hk1⟩]

/-- Witness for C8, the spec's scenario C: on the demo definition, stage "a"
with 4 total substeps and two increment_substep calls reports progress
10 + (2/4)*(50-10) = 30. -/
theorem get_current_progress_interpolates_witness :
    get_current_progress demoStages
        (increment_substep (increment_substep (set_stage demoStages initialTrackerState "a" 4))) =
      30 := by
  have h := get_current_progress_interpolates demoStages
    (increment_substep (increment_substep (set_stage demoStages initialTrackerState "a" 4)))
    1 (by decide) (by decide) (by decide) (by decide) (by decide)
  rw [h]
  simp [interpProgress, stage_progress_at, get_all_stages, demoStages, set_stage,
    increment_substep, pyInt, List.findIdx?]
  norm_num

/-- C1, code evaluated at the failing input: the consumer as written never
publishes any reply.  For every incoming message — with or without a
reply_to — on_message publishes the empty list, because the un-awaited
dispatcher call hands _send_response the coroutine object, whose .encode()
raises AttributeError that _send_response swallows; consequently the whole
consumed queue yields no replies (each job still completes, so the consumer
does keep processing subsequent messages); meanwhile the modelled awaited
dispatch would have produced a response value (a result, a -32601
Method-not-found error or a Server-error, never a raised exception) for the
reply the claim expects. -/
theorem on_message_publishes_no_reply :
    (∀ message : IncomingMessage, on_message message = []) ∧
    (∀ messages : List IncomingMessage, consume_messages messages = []) ∧
    (∀ (registry : List (String × (String → Except String String))) (method params : String),
      ∃ response : RpcResponse,
        dispatch_request registry method params = .ok response) := by
  have h1 : ∀ message : IncomingMessage, on_message message = [] := by
    intro message
    unfold on_message send_response handle_request_unawaited
    cases message.reply_to <;> rfl
  refine ⟨h1, ?_, ?_⟩
  · intro messages
    induction messages with
    | nil => rfl
    | cons m rest ih =>
      show on_message m ++ consume_messages rest = []
      rw [h1 m, ih]
      rfl
  · intro registry method params
    unfold dispatch_request
    rcases hf : registry.find? (fun entry => entry.1 == method) with _ | entry <;> rw [hf]
    · exact ⟨.rpcError (-32601) "Method not found" none, rfl⟩
    · dsimp only
      rcases he : entry.2 params with e | v
      · exact ⟨.rpcError (-32000) "Server error"
          (some ("Service execution failed: " ++ e)), rfl⟩
      · exact ⟨.result v, rfl⟩

/-! ## Producer system lemmas -/

theorem getD_set_list {α : Type} (l : List α) (i j : ℕ) (p d : α) :
    (l.set i p).getD j d = if i = j ∧ i < l.length then p else l.getD j d := by
  induction l generalizing i j with
  | nil => simp
  | cons a t ih =>
    cases i with
    | zero =>
      cases j with
      | zero => simp
      | succ j2 => simp
    | succ i2 =>
      cases j with
      | zero => simp
      | succ j2 =>
        simp only [List.set_cons_succ, List.getD_cons_succ, List.length_cons]
        rw [ih i2 j2]
        by_cases hc : i2 = j2 ∧ i2 < t.length
        · rw [if_pos hc, if_pos (by omega)]
        · rw [if_neg hc, if_neg (by omega)]

theorem callPhase_set (s : ProducerState) (calls2 : List CallPhase) (i j : ℕ) (p : CallPhase)
    (hc : calls2 = s.calls.set i p) :
    callPhase { s with calls := calls2 } j =
      if i = j ∧ i < s.calls.length then p else callPhase s j := by
  unfold callPhase
  rw [hc]
  exact getD_set_list s.calls i j p .notStarted

theorem callPhase_lt_length (s : ProducerState) (i : ℕ)
    (h : callPhase s i ≠ .notStarted) : i < s.calls.length := by
  by_contra hge
  exact h (by unfold callPhase; rw [List.getD_eq_default _ _ (by omega)])

theorem futGet_eq_none_iff (k : ℕ) (l : List (ℕ × FutureState)) :
    futGet k l = none ↔ k ∉ futKeys l := by
  induction l with
  | nil => simp [futGet, futKeys]
  | cons e t ih =>
    by_cases he : e.1 = k
    · simp [futGet, futKeys, he]
    · simp [futGet, futKeys, he, ih, Ne.symm he]

theorem futSet_of_not_mem (k : ℕ) (v : FutureState) (l : List (ℕ × FutureState))
    (h : k ∉ futKeys l) : futSet k v l = l ++ [(k, v)] := by
  induction l with
  | nil => rfl
  | cons e t ih =>
    have he : e.1 ≠ k := by
      intro hk
      exact h (by simp [futKeys, hk])
    simp only [futSet, if_neg he, List.cons_append]
    rw [ih (fun hm => h (by simp [futKeys] at hm ⊢; exact Or.inr hm))]

theorem futKeys_futSet_of_mem (k : ℕ) (v : FutureState) (l : List (ℕ × FutureState))
    (h : k ∈ futKeys l) : futKeys (futSet k v l) = futKeys l := by
  induction l with
  | nil => simp [futKeys] at h
  | cons e t ih =>
    by_cases he : e.1 = k
    · simp [futSet, futKeys, he]
    · have hm : k ∈ futKeys t := by
        simp [futKeys] at h
        rcases h with h | h
        · exact absurd h.symm he
        · simpa [futKeys] using h
      simp only [futSet, if_neg he]
      show e.1 :: futKeys (futSet k v t) = e.1 :: futKeys t
      rw [ih hm]

theorem futGet_futSet_self (k : ℕ) (v : FutureState) (l : List (ℕ × FutureState)) :
    futGet k (futSet k v l) = some v := by
  induction l with
  | nil => simp [futSet, futGet]
  | cons e t ih =>
    by_cases he : e.1 = k
    · simp [futSet, futGet, he]
    · simp [futSet, futGet, he, ih]

theorem futGet_futSet_ne (k k2 : ℕ) (v : FutureState) (l : List (ℕ × FutureState))
    (h : k2 ≠ k) : futGet k2 (futSet k v l) = futGet k2 l := by
  induction l with
  | nil => simp [futSet, futGet, h, Ne.symm h]
  | cons e t ih =>
    by_cases he : e.1 = k
    · simp [futSet, futGet, he, Ne.symm h, h]
    · by_cases he2 : e.1 = k2
      · simp [futSet, futGet, he, he2, h, Ne.symm h]
      · simp [futSet, futGet, he, he2, h, Ne.symm h, ih]

theorem futPop_sublist (k : ℕ) (l : List (ℕ × FutureState)) :
    List.Sublist (futPop k l) l := by
  induction l with
  | nil => simp [futPop]
  | cons e t ih =>
    by_cases he : e.1 = k
    · simp only [futPop, if_pos he]
      exact List.sublist_cons_self e t
    · simp only [futPop, if_neg he]
      exact List.Sublist.cons₂ e ih

theorem mem_futKeys_futPop (k k2 : ℕ) (l : List (ℕ × FutureState))
    (h : k2 ∈ futKeys (futPop k l)) : k2 ∈ futKeys l := by
  have hs := List.Sublist.map (fun e : ℕ × FutureState => e.1) (futPop_sublist k l)
  exact hs.mem h

theorem futGet_futPop_self (k : ℕ) (l : List (ℕ × FutureState))
    (h : (futKeys l).Nodup) : futGet k (futPop k l) = none := by
  induction l with
  | nil => simp [futPop, futGet]
  | cons e t ih =>
    rw [futKeys, List.map_cons, List.nodup_cons] at h
    by_cases he : e.1 = k
    · simp only [futPop, if_pos he]
      rw [futGet_eq_none_iff]
      rw [← he]
      exact h.1
    · simp only [futPop, if_neg he, futGet, if_neg he]
      exact ih h.2

theorem futGet_futPop_ne (k k2 : ℕ) (l : List (ℕ × FutureState))
    (h : k2 ≠ k) : futGet k2 (futPop k l) = futGet k2 l := by
  induction l with
  | nil => simp [futPop]
  | cons e t ih =>
    by_cases he : e.1 = k
    · simp [futPop, futGet, he, h, Ne.symm h]
    · by_cases he2 : e.1 = k2
      · simp [futPop, futGet, he, he2, h, Ne.symm h]
      · simp [futPop, futGet, he, he2, h, Ne.symm h, ih]

theorem callPhase_producerInit (n i : ℕ) : callPhase (producerInit n) i = .notStarted := by
  unfold callPhase producerInit
  by_cases hi : i < n
  · rw [List.getD_eq_getElem _ _ (by simpa using hi)]
    simp
  · rw [List.getD_eq_default _ _ (by simpa using hi)]

theorem producerInv_producerInit (n : ℕ) : ProducerInv (producerInit n) := by
  refine ⟨?_, ?_, ?_⟩
  · intro i hi
    rcases hi with h | h <;> rw [callPhase_producerInit] at h <;> exact absurd h (by simp)
  · simp [producerInit, futKeys]
  · intro k hk
    simp [producerInit, futKeys] at hk

theorem producerStep_inv (s : ProducerState) (e : ProducerEvent) (s2 : ProducerState)
    (hinv : ProducerInv s) (h : producerStep s e = some s2) : ProducerInv s2 := by
  obtain ⟨h1, h2, h3⟩ := hinv
  rcases e with i | i | i | ⟨c, body⟩ | i | i | _
  · -- startCall
    simp only [producerStep] at h
    split_ifs at h with hc
    obtain rfl := Option.some.inj h
    have hcp : ∀ j, callPhase { s with calls := s.calls.set i .waitingLock } j =
        if i = j ∧ i < s.calls.length then .waitingLock else callPhase s j := by
      intro j
      show (s.calls.set i .waitingLock).getD j .notStarted = _
      exact getD_set_list s.calls i j .waitingLock .notStarted
    refine ⟨?_, h2, ?_⟩
    · intro j hj
      rcases hj with hj | hj <;> rw [hcp j] at hj <;> split_ifs at hj with hij
    -- remaining: condition false, so callPhase s j active
      · exact h1 j (Or.inl hj)
      · exact h1 j (Or.inr hj)
    · intro k hk
      have hak := h3 k hk
      have hki : ¬(i = k ∧ i < s.calls.length) := by
        rintro ⟨rfl, _⟩
        rcases hak with ha | ha <;> rw [hc] at ha <;> exact absurd ha (by simp)
      rcases hak with ha | ha
      · exact Or.inl (by rw [hcp k, if_neg hki]; exact ha)
      · exact Or.inr (by rw [hcp k, if_neg hki]; exact ha)
  · -- acquireLock
    simp only [producerStep] at h
    split_ifs at h with hc
    obtain rfl := Option.some.inj h
    obtain ⟨hwl, hlock⟩ := hc
    have hilt : i < s.calls.length :=
      callPhase_lt_length s i (by rw [hwl]; simp)
    have hcp : ∀ j, callPhase
        { s with
            lock_holder := some i,
            futures := futSet i FutureState.pending s.futures,
            calls := s.calls.set i CallPhase.publishing } j =
        if i = j ∧ i < s.calls.length then CallPhase.publishing else callPhase s j := by
      intro j
      show (s.calls.set i CallPhase.publishing).getD j CallPhase.notStarted = _
      exact getD_set_list s.calls i j CallPhase.publishing CallPhase.notStarted
    have hifresh : i ∉ futKeys s.futures := by
      intro hmem
      rcases h3 i hmem with ha | ha <;> rw [hwl] at ha <;> exact absurd ha (by simp)
    have hkeys : futKeys (futSet i .pending s.futures) = futKeys s.futures ++ [i] := by
      rw [futSet_of_not_mem i .pending s.futures hifresh]
      simp [futKeys]
    refine ⟨?_, ?_, ?_⟩
    · intro j hj
      rcases hj with hj | hj <;> rw [hcp j] at hj <;> split_ifs at hj with hij
      · show some i = some j
        rw [hij.1]
      · exact absurd (h1 j (Or.inl hj)) (by rw [hlock]; simp)
      · exact absurd (h1 j (Or.inr hj)) (by rw [hlock]; simp)
    · rw [hkeys, List.nodup_append]
      exact ⟨h2, List.nodup_singleton i, by
        intro a ha hb
        rw [List.mem_singleton] at hb
        subst hb
        exact hifresh ha⟩
    · intro k hk
      rw [hkeys, List.mem_append, List.mem_singleton] at hk
      rcases hk with hk | rfl
      · exact absurd (h1 k (h3 k hk)) (by rw [hlock]; simp)
      · exact Or.inl (by rw [hcp k, if_pos ⟨rfl, hilt⟩])
  · -- publishDone
    simp only [producerStep] at h
    split_ifs at h with hc
    obtain rfl := Option.some.inj h
    have hilt : i < s.calls.length :=
      callPhase_lt_length s i (by rw [hc]; simp)
    have hcp : ∀ j, callPhase
        { s with
            calls := s.calls.set i CallPhase.awaitingReply,
            published := s.published ++ [i] } j =
        if i = j ∧ i < s.calls.length then CallPhase.awaitingReply else callPhase s j := by
      intro j
      show (s.calls.set i CallPhase.awaitingReply).getD j CallPhase.notStarted = _
      exact getD_set_list s.calls i j CallPhase.awaitingReply CallPhase.notStarted
    refine ⟨?_, h2, ?_⟩
    · intro j hj
      rcases hj with hj | hj <;> rw [hcp j] at hj <;> split_ifs at hj with hij
      · exact h1 j (Or.inl hj)
      · show s.lock_holder = some j
        rw [← hij.1]
        exact h1 i (Or.inl hc)
      · exact h1 j (Or.inr hj)
    · intro k hk
      by_cases hik : i = k ∧ i < s.calls.length
      · exact Or.inr (by rw [hcp k, if_pos hik])
      · rcases h3 k hk with ha | ha
        · exact Or.inl (by rw [hcp k, if_neg hik]; exact ha)
        · exact Or.inr (by rw [hcp k, if_neg hik]; exact ha)
  · -- deliverReply
    simp only [producerStep] at h
    split_ifs at h with hl
    rcases hf : futGet c s.futures with _ | fs
    · rw [hf] at h
      obtain rfl := Option.some.inj h
      exact ⟨h1, h2, h3⟩
    · rw [hf] at h
      rcases fs with _ | v | ⟨code, msg⟩
      · obtain rfl := Option.some.inj h
        have hmem : c ∈ futKeys s.futures := by
          by_contra hnm
          rw [(futGet_eq_none_iff c s.futures).2 hnm] at hf
          cases hf
        have hkeys : ∀ v : FutureState, futKeys (futSet c v s.futures) = futKeys s.futures :=
          fun v => futKeys_futSet_of_mem c v s.futures hmem
        refine ⟨h1, ?_, ?_⟩
        · show (futKeys (futSet c _ s.futures)).Nodup
          rw [hkeys]
          exact h2
        · intro k hk
          exact h3 k ((hkeys _) ▸ hk)
      · obtain rfl := Option.some.inj h
        exact ⟨h1, h2, h3⟩
      · obtain rfl := Option.some.inj h
        exact ⟨h1, h2, h3⟩
  · -- wake
    simp only [producerStep] at h
    rcases hcp0 : callPhase s i with _ | _ | _ | _ | v0 | ⟨c0, m0⟩ | _ <;> rw [hcp0] at h <;>
      rcases hf : futGet i s.futures with _ | fs <;> rw [hf] at h <;> try cases h
    all_goals rcases fs with _ | v | ⟨code, msg⟩ <;> try cases h
    all_goals {
      have hilt : i < s.calls.length :=
        callPhase_lt_length s i (by rw [hcp0]; simp)
      have hcp : ∀ j P calls2, calls2 = s.calls.set i P →
          callPhase
            { s with
                lock_holder := none,
                futures := futPop i s.futures,
                calls := calls2 } j =
          if i = j ∧ i < s.calls.length then P else callPhase s j := by
        intro j P calls2 hc2
        show calls2.getD j CallPhase.notStarted = _
        rw [hc2]
        exact getD_set_list s.calls i j P CallPhase.notStarted
      refine ⟨?_, ?_, ?_⟩
      · intro j hj
        rcases hj with hj | hj <;>
          rw [hcp j _ _ rfl] at hj <;>
          split_ifs at hj with hij <;>
          first
          | exact absurd hj (by simp)
          | (exfalso
             have hli := h1 i (by rw [activeCall, hcp0]; simp)
             have hlj := h1 j (by rw [activeCall]; first | exact Or.inl hj | exact Or.inr hj)
             rw [hli] at hlj
             exact hij ⟨(Option.some.inj hlj), hilt⟩)
      · exact ((futPop_sublist i s.futures).map (fun e : ℕ × FutureState => e.1)).nodup h2
      · intro k hk
        exfalso
        have hkmem := mem_futKeys_futPop i k s.futures hk
        have hki : k ≠ i := by
          intro hkeq
          subst hkeq
          have hnone := futGet_futPop_self k s.futures h2
          rw [futGet_eq_none_iff] at hnone
          exact hnone hk
        have hli := h1 i (by rw [activeCall, hcp0]; simp)
        have hlk := h1 k (h3 k hkmem)
        rw [hli] at hlk
        exact hki (Option.some.inj hlk).symm
    }
  · -- timeoutFire
    simp only [producerStep] at h
    split_ifs at h with hc
    obtain rfl := Option.some.inj h
    obtain ⟨hcw, hfp⟩ := hc
    have hilt : i < s.calls.length :=
      callPhase_lt_length s i (by rw [hcw]; simp)
    have hcp : ∀ j, callPhase
        { s with
            lock_holder := none,
            futures := futPop i s.futures,
            calls := s.calls.set i CallPhase.doneTimeout } j =
        if i = j ∧ i < s.calls.length then CallPhase.doneTimeout else callPhase s j := by
      intro j
      show (s.calls.set i CallPhase.doneTimeout).getD j CallPhase.notStarted = _
      exact getD_set_list s.calls i j CallPhase.doneTimeout CallPhase.notStarted
    refine ⟨?_, ?_, ?_⟩
    · intro j hj
      rcases hj with hj | hj <;> rw [hcp j] at hj <;> split_ifs at hj with hij <;>
        first
        | exact absurd hj (by simp)
        | (exfalso
           have hli := h1 i (by rw [activeCall, hcw]; simp)
           have hlj := h1 j (by rw [activeCall]; first | exact Or.inl hj | exact Or.inr hj)
           rw [hli] at hlj
           exact hij ⟨(Option.some.inj hlj), hilt⟩)
    · exact ((futPop_sublist i s.futures).map (fun e : ℕ × FutureState => e.1)).nodup h2
    · intro k hk
      exfalso
      have hkmem := mem_futKeys_futPop i k s.futures hk
      have hki : k ≠ i := by
        intro hkeq
        subst hkeq
        have hnone := futGet_futPop_self k s.futures h2
        rw [futGet_eq_none_iff] at hnone
        exact hnone hk
      have hli := h1 i (by rw [activeCall, hcw]; simp)
      have hlk := h1 k (h3 k hkmem)
      rw [hli] at hlk
      exact hki (Option.some.inj hlk).symm
  · -- closeProducer
    simp only [producerStep] at h
    obtain rfl := Option.some.inj h
    exact ⟨h1, h2, h3⟩

theorem producerExec_inv : ∀ (evs : List ProducerEvent) (s s2 : ProducerState),
    ProducerInv s → producerExec s evs = some s2 → ProducerInv s2 := by
  intro evs
  induction evs with
  | nil =>
    intro s s2 hi h
    obtain rfl := Option.some.inj h
    exact hi
  | cons e rest ih =>
    intro s s2 hi h
    simp only [producerExec] at h
    rcases hs : producerStep s e with _ | s3
    · rw [hs] at h
      cases h
    · rw [hs] at h
      exact ih s3 s2 (producerStep_inv s e s3 hi hs) h

/-- C4 counterexample: calls are fully serialized, not merely serialized
while composing.  With two calls, after call 0 has published its request and
suspended awaiting the reply, it still holds the lock; call 1 has started
but sits waiting for the lock, and its acquireLock step is not enabled — so
a second call can never reach the awaiting-reply state while another call
awaits, contradicting the claim that multiple calls may be awaiting replies
concurrently. -/
theorem producer_call_serialization_counterexample :
    (producerExec (producerInit 2)
        [.startCall 0, .startCall 1, .acquireLock 0, .publishDone 0]).map
        (fun s => (callPhase s 0, callPhase s 1, s.lock_holder)) =
      some (.awaitingReply, .waitingLock, some 0) ∧
    producerExec (producerInit 2)
        [.startCall 0, .startCall 1, .acquireLock 0, .publishDone 0, .acquireLock 1] =
      none := by
  decide

/-- C4 amended: the serialization guard is held for the whole call —
composing, publishing and awaiting the reply — so at every reachable
producer state at most one call is in its critical section (publishing or
awaiting); the reply listener demultiplexes by correlation id: a delivered
reply leaves every other correlation id's table entry and every call phase
unchanged, and resolves the matching entry when it is pending. -/
theorem producer_serialization_and_demultiplexing (n : ℕ) (evs : List ProducerEvent)
    (s : ProducerState) (hexec : producerExec (producerInit n) evs = some s) :
    (∀ i j, activeCall s i → activeCall s j → i = j) ∧
    (∀ c body s2, producerStep s (.deliverReply c body) = some s2 →
      (∀ c2, c2 ≠ c → futGet c2 s2.futures = futGet c2 s.futures) ∧
      (futGet c s.futures = some .pending →
        futGet c s2.futures =
          some (match body with
                | .resultBody v => FutureState.resolved v
                | .errorBody code msg => FutureState.rejected code msg)) ∧
      (∀ j, callPhase s2 j = callPhase s j)) := by
  have hinv := producerExec_inv evs (producerInit n) s (producerInv_producerInit n) hexec
  constructor
  · intro i j hi hj
    have h1 := hinv.1 i hi
    have h2 := hinv.1 j hj
    rw [h1] at h2
    exact Option.some.inj h2
  · intro c body s2 h
    simp only [producerStep] at h
    split_ifs at h with hl
    rcases hf : futGet c s.futures with _ | fs
    · rw [hf] at h
      obtain rfl := Option.some.inj h
      refine ⟨fun c2 _ => rfl, ?_, fun j => rfl⟩
      intro hp
      cases hp
    · rw [hf] at h
      rcases fs with _ | v | ⟨code, msg⟩
      · obtain rfl := Option.some.inj h
        refine ⟨?_, ?_, fun j => rfl⟩
        · intro c2 hc2
          exact futGet_futSet_ne c c2 _ s.futures hc2
        · intro _
          exact futGet_futSet_self c _ s.futures
      · obtain rfl := Option.some.inj h
        refine ⟨fun c2 _ => rfl, ?_, fun j => rfl⟩
        intro hp
        cases hp
      · obtain rfl := Option.some.inj h
        refine ⟨fun c2 _ => rfl, ?_, fun j => rfl⟩
        intro hp
        cases hp

/-- Witness for C4's amended theorem at a concrete input: after one call
has published and awaits, at most one call is active, and delivering a
matching reply resolves exactly that entry. -/
theorem producer_serialization_and_demultiplexing_witness :
    producerExec (producerInit 2) [.startCall 0, .acquireLock 0, .publishDone 0] =
      some ⟨some 0, [(0, .pending)], [.awaitingReply, .notStarted], true, [0]⟩ ∧
    (∀ i j,
      activeCall (⟨some 0, [(0, .pending)], [.awaitingReply, .notStarted], true, [0]⟩ :
        ProducerState) i →
      activeCall (⟨some 0, [(0, .pending)], [.awaitingReply, .notStarted], true, [0]⟩ :
        ProducerState) j → i = j) :=
  ⟨by decide,
    (producer_serialization_and_demultiplexing 2
      [.startCall 0, .acquireLock 0, .publishDone 0] _ (by decide)).1⟩

/-- C5: at every reachable producer state, a firing timeout for call i
removes i's entry from the pending table, resolves call i with the timeout
error and releases the lock; and the reply listener drops, without failing,
any reply whose correlation id has no table entry — in particular, the late
reply of a call that has already timed out (its entry having been removed)
is silently dropped and the state is unchanged. -/
theorem producer_timeout_and_late_reply_dropped (n : ℕ) (evs : List ProducerEvent)
    (s : ProducerState) (hexec : producerExec (producerInit n) evs = some s) :
    (∀ i s2, producerStep s (.timeoutFire i) = some s2 →
      callPhase s2 i = .doneTimeout ∧ futGet i s2.futures = none ∧
        s2.lock_holder = none) ∧
    (∀ c body, futGet c s.futures = none → s.listener_active = true →
      producerStep s (.deliverReply c body) = some s) ∧
    (∀ i body, callPhase s i = .doneTimeout → s.listener_active = true →
      producerStep s (.deliverReply i body) = some s) := by
  have hinv := producerExec_inv evs (producerInit n) s (producerInv_producerInit n) hexec
  have hdrop : ∀ c body, futGet c s.futures = none → s.listener_active = true →
      producerStep s (.deliverReply c body) = some s := by
    intro c body hnone hl
    simp only [producerStep]
    rw [if_pos (by rw [hl] : s.listener_active = true), hnone]
  refine ⟨?_, hdrop, ?_⟩
  · intro i s2 h
    simp only [producerStep] at h
    split_ifs at h with hc
    obtain rfl := Option.some.inj h
    obtain ⟨hcw, _⟩ := hc
    have hilt : i < s.calls.length :=
      callPhase_lt_length s i (by rw [hcw]; simp)
    refine ⟨?_, ?_, rfl⟩
    · show (s.calls.set i CallPhase.doneTimeout).getD i CallPhase.notStarted = _
      rw [getD_set_list s.calls i i CallPhase.doneTimeout CallPhase.notStarted,
        if_pos ⟨rfl, hilt⟩]
    · exact futGet_futPop_self i s.futures hinv.2.1
  · intro i body hdone hl
    apply hdrop i body ?_ hl
    rw [futGet_eq_none_iff]
    intro hmem
    rcases hinv.2.2 i hmem with ha | ha <;> rw [hdone] at ha <;> exact absurd ha (by simp)

/-- Witness for C5 at a concrete input: call 0 publishes, its timeout
fires — the table entry is gone and the call resolved with the timeout
error — and a late reply for correlation id 0 is then dropped, leaving the
state unchanged. -/
theorem producer_timeout_and_late_reply_dropped_witness :
    producerExec (producerInit 1)
        [.startCall 0, .acquireLock 0, .publishDone 0, .timeoutFire 0] =
      some ⟨none, [], [.doneTimeout], true, [0]⟩ ∧
    producerStep (⟨none, [], [.doneTimeout], true, [0]⟩ : ProducerState)
        (.deliverReply 0 (.resultBody "late")) =
      some ⟨none, [], [.doneTimeout], true, [0]⟩ :=
  ⟨by decide,
    (producer_timeout_and_late_reply_dropped 1
      [.startCall 0, .acquireLock 0, .publishDone 0, .timeoutFire 0] _ (by decide)).2.2 0
      (.resultBody "late") (by decide) (by decide)⟩

/-- C6 counterexample: close() only cancels the reply consumer.  Starting
one call, letting it publish and then closing the producer reaches a state
where the listener is unregistered yet call 0 is still awaiting its reply
and its future is still pending in the table — it has not been resolved
with a connection-closed error (nothing in close() touches _futures). -/
theorem producer_close_counterexample :
    producerExec (producerInit 1)
        [.startCall 0, .acquireLock 0, .publishDone 0, .closeProducer] =
      some ⟨some 0, [(0, .pending)], [.awaitingReply], false, [0]⟩ := by
  decide

theorem producer_after_close_step (s : ProducerState) (e : ProducerEvent)
    (s2 : ProducerState) (i : ℕ) (hl : s.listener_active = false)
    (hst : (callPhase s i = .awaitingReply ∧ futGet i s.futures = some .pending) ∨
      callPhase s i = .doneTimeout)
    (h : producerStep s e = some s2) :
    s2.listener_active = false ∧
    ((callPhase s2 i = .awaitingReply ∧ futGet i s2.futures = some .pending) ∨
      callPhase s2 i = .doneTimeout) := by
  have hph : callPhase s i ≠ .notStarted ∧ callPhase s i ≠ .waitingLock ∧
      callPhase s i ≠ .publishing := by
    rcases hst with ⟨hp, _⟩ | hp <;> rw [hp] <;> exact ⟨by simp, by simp, by simp⟩
  rcases e with j | j | j | ⟨c, body⟩ | j | j | _
  · -- startCall j
    simp only [producerStep] at h
    split_ifs at h with hc
    obtain rfl := Option.some.inj h
    have hji : ¬(j = i ∧ j < s.calls.length) := by
      rintro ⟨rfl, _⟩
      exact hph.1 hc
    have hcp : callPhase { s with calls := s.calls.set j .waitingLock } i = callPhase s i := by
      show (s.calls.set j CallPhase.waitingLock).getD i CallPhase.notStarted = _
      rw [getD_set_list s.calls j i CallPhase.waitingLock CallPhase.notStarted, if_neg hji]
      rfl
    rcases hst with ⟨hp, hfu⟩ | hp
    · exact ⟨hl, Or.inl ⟨by rw [hcp]; exact hp, hfu⟩⟩
    · exact ⟨hl, Or.inr (by rw [hcp]; exact hp)⟩
  · -- acquireLock j
    simp only [producerStep] at h
    split_ifs at h with hc
    obtain rfl := Option.some.inj h
    have hji : j ≠ i := by
      rintro rfl
      exact hph.2.1 hc.1
    have hji2 : ¬(j = i ∧ j < s.calls.length) := by
      rintro ⟨rfl, _⟩
      exact hji rfl
    have hcp : callPhase
        { s with
            lock_holder := some j,
            futures := futSet j FutureState.pending s.futures,
            calls := s.calls.set j CallPhase.publishing } i = callPhase s i := by
      show (s.calls.set j CallPhase.publishing).getD i CallPhase.notStarted = _
      rw [getD_set_list s.calls j i CallPhase.publishing CallPhase.notStarted, if_neg hji2]
      rfl
    rcases hst with ⟨hp, hfu⟩ | hp
    · refine ⟨hl, Or.inl ⟨by rw [hcp]; exact hp, ?_⟩⟩
      show futGet i (futSet j FutureState.pending s.futures) = some FutureState.pending
      rw [futGet_futSet_ne j i FutureState.pending s.futures (Ne.symm hji)]
      exact hfu
    · exact ⟨hl, Or.inr (by rw [hcp]; exact hp)⟩
  · -- publishDone j
    simp only [producerStep] at h
    split_ifs at h with hc
    obtain rfl := Option.some.inj h
    have hji : ¬(j = i ∧ j < s.calls.length) := by
      rintro ⟨rfl, _⟩
      exact hph.2.2 hc
    have hcp : callPhase
        { s with
            calls := s.calls.set j CallPhase.awaitingReply,
            published := s.published ++ [j] } i = callPhase s i := by
      show (s.calls.set j CallPhase.awaitingReply).getD i CallPhase.notStarted = _
      rw [getD_set_list s.calls j i CallPhase.awaitingReply CallPhase.notStarted, if_neg hji]
      rfl
    rcases hst with ⟨hp, hfu⟩ | hp
    · exact ⟨hl, Or.inl ⟨by rw [hcp]; exact hp, hfu⟩⟩
    · exact ⟨hl, Or.inr (by rw [hcp]; exact hp)⟩
  · -- deliverReply: disabled once the listener is unregistered
    simp only [producerStep] at h
    rw [if_neg (by rw [hl]; simp)] at h
    cases h
  · -- wake j
    simp only [producerStep] at h
    rcases hcp0 : callPhase s j with _ | _ | _ | _ | v0 | ⟨c0, m0⟩ | _ <;> rw [hcp0] at h <;>
      rcases hf : futGet j s.futures with _ | fs <;> rw [hf] at h <;> try cases h
    all_goals rcases fs with _ | v | ⟨code, msg⟩ <;> try cases h
    all_goals {
      have hji : j ≠ i := by
        rintro rfl
        rcases hst with ⟨hp, hfu⟩ | hp
        · rw [hfu] at hf
          cases hf
        · rw [hp] at hcp0
          cases hcp0
      have hji2 : ¬(j = i ∧ j < s.calls.length) := by
        rintro ⟨rfl, _⟩
        exact hji rfl
      refine ⟨hl, ?_⟩
      rcases hst with ⟨hp, hfu⟩ | hp
      · refine Or.inl ⟨?_, ?_⟩
        · show (s.calls.set j _).getD i CallPhase.notStarted = _
          rw [getD_set_list, if_neg hji2]
          exact hp
        · show futGet i (futPop j s.futures) = some FutureState.pending
          rw [futGet_futPop_ne j i s.futures (Ne.symm hji)]
          exact hfu
      · refine Or.inr ?_
        show (s.calls.set j _).getD i CallPhase.notStarted = _
        rw [getD_set_list, if_neg hji2]
        exact hp
    }
  · -- timeoutFire j
    simp only [producerStep] at h
    split_ifs at h with hc
    obtain rfl := Option.some.inj h
    by_cases hji : j = i
    · subst hji
      refine ⟨hl, Or.inr ?_⟩
      have hjlt : j < s.calls.length :=
        callPhase_lt_length s j (by rw [hc.1]; simp)
      show (s.calls.set j CallPhase.doneTimeout).getD j CallPhase.notStarted = _
      rw [getD_set_list s.calls j j CallPhase.doneTimeout CallPhase.notStarted,
        if_pos ⟨rfl, hjlt⟩]
    · have hji2 : ¬(j = i ∧ j < s.calls.length) := by
        rintro ⟨rfl, _⟩
        exact hji rfl
      have hcp : callPhase
          { s with
              lock_holder := none,
              futures := futPop j s.futures,
              calls := s.calls.set j CallPhase.doneTimeout } i = callPhase s i := by
        show (s.calls.set j CallPhase.doneTimeout).getD i CallPhase.notStarted = _
        rw [getD_set_list s.calls j i CallPhase.doneTimeout CallPhase.notStarted, if_neg hji2]
        rfl
      rcases hst with ⟨hp, hfu⟩ | hp
      · refine ⟨hl, Or.inl ⟨by rw [hcp]; exact hp, ?_⟩⟩
        show futGet i (futPop j s.futures) = some FutureState.pending
        rw [futGet_futPop_ne j i s.futures (Ne.symm hji)]
        exact hfu
      · exact ⟨hl, Or.inr (by rw [hcp]; exact hp)⟩
  · -- closeProducer
    simp only [producerStep] at h
    obtain rfl := Option.some.inj h
    exact ⟨rfl, hst⟩

theorem producer_after_close_exec : ∀ (evs : List ProducerEvent) (s s2 : ProducerState)
    (i : ℕ), s.listener_active = false →
    ((callPhase s i = .awaitingReply ∧ futGet i s.futures = some .pending) ∨
      callPhase s i = .doneTimeout) →
    producerExec s evs = some s2 →
    ((callPhase s2 i = .awaitingReply ∧ futGet i s2.futures = some .pending) ∨
      callPhase s2 i = .doneTimeout) := by
  intro evs
  induction evs with
  | nil =>
    intro s s2 i _ hst h
    obtain rfl := Option.some.inj h
    exact hst
  | cons e rest ih =>
    intro s s2 i hl hst h
    simp only [producerExec] at h
    rcases hs : producerStep s e with _ | s3
    · rw [hs] at h
      cases h
    · rw [hs] at h
      obtain ⟨hl3, hst3⟩ := producer_after_close_step s e s3 i hl hst hs
      exact ih s3 s2 i hl3 hst3 h

/-- C6 amended: close() unregisters the reply listener and nothing else — a
close step sets the listener flag to false and leaves the futures table and
every call phase untouched, so calls still pending at that moment are NOT
resolved with a connection-closed error; after the close, reply delivery is
disabled, and under any further event sequence such a call either remains
awaiting with its future still pending or completes only through its own
timeout (as a timeout error). -/
theorem producer_close_unregisters_only (s : ProducerState) :
    (∀ s2, producerStep s .closeProducer = some s2 →
      s2.listener_active = false ∧ s2.futures = s.futures ∧ s2.calls = s.calls ∧
        s2.lock_holder = s.lock_holder) ∧
    (∀ i evs s2, s.listener_active = false →
      callPhase s i = .awaitingReply → futGet i s.futures = some .pending →
      producerExec s evs = some s2 →
      ((callPhase s2 i = .awaitingReply ∧ futGet i s2.futures = some .pending) ∨
        callPhase s2 i = .doneTimeout)) := by
  constructor
  · intro s2 h
    simp only [producerStep] at h
    obtain rfl := Option.some.inj h
    exact ⟨rfl, rfl, rfl, rfl⟩
  · intro i evs s2 hl hph hfu h
    exact producer_after_close_exec evs s s2 i hl (Or.inl ⟨hph, hfu⟩) h

/-- Witness for C6's amended theorem at a concrete input: closing after one
published call leaves the call awaiting with its future pending, and from
the closed state the only way the call completes is its own timeout. -/
theorem producer_close_unregisters_only_witness :
    (⟨some 0, [(0, .pending)], [.awaitingReply], false, [0]⟩ : ProducerState).listener_active =
        false ∧
    ((callPhase (⟨none, [], [.doneTimeout], false, [0]⟩ : ProducerState) 0 = .awaitingReply ∧
        futGet 0 (⟨none, [], [.doneTimeout], false, [0]⟩ : ProducerState).futures =
          some .pending) ∨
      callPhase (⟨none, [], [.doneTimeout], false, [0]⟩ : ProducerState) 0 = .doneTimeout) :=
  ⟨rfl,
    (producer_close_unregisters_only
      ⟨some 0, [(0, .pending)], [.awaitingReply], false, [0]⟩).2 0 [.timeoutFire 0]
      ⟨none, [], [.doneTimeout], false, [0]⟩ (by decide) (by decide) (by decide) (by decide)⟩

end VideoTranslator
